import Mathlib

/-!
# Verification of the Rocket form-binding core

Shallow embedding of the streaming form-binding engine:

* the leaf binder protocol from `core/lib/src/form/from_form_field.rs`
  (the blanket `FromForm` implementation over `FromFormField`, with its
  per-context attempt counter and first-wins push semantics);
* the composite binder generated by `core/codegen/src/derive/from_form.rs`
  (modelled generically over a list of declared fields with dependent
  child binders, mirroring the token streams emitted by the derive);
* the temporary-file sink from `core/lib/src/data/temp_file.rs`
  (filesystem effects are modelled by an explicit environment recording
  the success or failure of each primitive operation).

The error model (`Errors`, `ErrorKind`, the monotonic `set_name` /
`set_value` annotations) and the name model (`NameView`, shifting,
`key_lossy`) live in repository files that are not part of the sources
under examination; those are modelled from the specification and say so
in their doc comments.
-/

set_option autoImplicit false

namespace Rocket

/-! ## Name model -/

/-- Modelled from the spec: the Name/Path model of `form/name.rs` (not among
the given sources). A `NameView` is a non-owning view into a full dotted /
indexed field path: it keeps the complete ordered key sequence of the source
name together with the position of the current (leading) key. Shifting
consumes the leading key by advancing the position; the full source path
remains available for error reporting. -/
structure NameView where
  keys : List String
  pos : Nat
  deriving DecidableEq, Repr

namespace NameView

/-- Consume the outermost path segment: the view now starts at the next key. -/
def shift (nv : NameView) : NameView := { nv with pos := nv.pos + 1 }

/-- The current (leading) key of the view, in its normalized lossy form.
Modelled from the spec: matching is case-sensitive exact match on the
normalized form, so normalization is the identity on plain identifiers. -/
def key_lossy (nv : NameView) : String := nv.keys.getD nv.pos ""

/-- The path strictly before the current key — what the generated composite
binder records as `__parent` on every push. An empty list models `None`. -/
def parent (nv : NameView) : List String := nv.keys.take nv.pos

/-- A fresh view of a full path, positioned at the first key. -/
def ofKeys (ks : List String) : NameView := { keys := ks, pos := 0 }

end NameView

/-! ## Error model -/

/-- Modelled from the spec: the error taxonomy of §7 (`form/error.rs` is not
among the given sources). `conversion` covers the leaf parse failures that
the concrete code expresses through specialized variants. -/
inductive ErrorKind where
  | missing
  | duplicate
  | unknown
  | unexpected
  | conversion (cause : String)
  | validation (msg : String)
  | truncated (limit : Nat)
  | ioError (cause : String)
  deriving DecidableEq, Repr

/-- Modelled from the spec: a single error — a kind, an optional field-path
annotation and an optional captured raw value (`form/error.rs`). -/
structure Error where
  kind : ErrorKind
  name : Option (List String)
  value : Option String
  deriving DecidableEq, Repr

namespace Error

/-- An unannotated error of the given kind (`ErrorKind::into()`). -/
def ofKind (k : ErrorKind) : Error := { kind := k, name := none, value := none }

/-- Modelled from the spec: `Error::set_name` is a monotonic (check-then-set)
annotation — once a field path is set it is never overwritten. -/
def set_name (p : List String) (e : Error) : Error :=
  match e.name with
  | some _ => e
  | none => { e with name := some p }

/-- Modelled from the spec: `Error::set_value`, monotonic like `set_name`. -/
def set_value (v : String) (e : Error) : Error :=
  match e.value with
  | some _ => e
  | none => { e with value := some v }

/-- Is this error of kind `unexpected`? (the check the leaf push performs). -/
def isUnexpected (e : Error) : Bool :=
  match e.kind with
  | .unexpected => true
  | _ => false

end Error

/-- An ordered sequence of individual errors (`Errors` in the source). -/
abbrev Errors := List Error

namespace Errors

/-- `Errors::from(kind)`: a singleton unannotated error. -/
def ofKind (k : ErrorKind) : Errors := [Error.ofKind k]

/-- Modelled from the spec: `Errors::set_name` annotates every contained
error that does not yet carry a field path; existing paths are preserved
(first writer wins). -/
def set_name (p : List String) (es : Errors) : Errors :=
  es.map (Error.set_name p)

/-- Modelled from the spec: `Errors::set_value`, monotonic per error. -/
def set_value (v : String) (es : Errors) : Errors :=
  es.map (Error.set_value v)

/-- `Errors::with_name`: the by-value form of `set_name`. -/
def with_name (p : List String) (es : Errors) : Errors := set_name p es

/-- The last error of the sequence, if any (`Errors::last`). -/
def last? (es : Errors) : Option Error := List.getLast? es

/-- `Errors::is_empty`. -/
def isEmpty (es : Errors) : Bool := List.isEmpty es

end Errors

/-! ## Field events and options -/

/-- `Options { strict: bool }` from `form/mod.rs`: per-parse strictness. -/
structure Options where
  strict : Bool
  deriving DecidableEq, Repr

/-- A value field event: a name and the decoded text (`form/field.rs`). -/
structure ValueField where
  name : NameView
  value : String
  deriving DecidableEq, Repr

/-- A data field event, reduced to what the binder protocol observes of it:
its name. The byte stream itself is consumed by the abstract `from_data`
of the receiving leaf. -/
structure DataField where
  name : NameView
  deriving DecidableEq, Repr

/-- Modelled from the spec: `ValueField::unexpected` builds an `Unexpected`
error annotated with the event's full field path and its raw value. -/
def ValueField.unexpected (f : ValueField) : Error :=
  { kind := .unexpected, name := some f.name.keys, value := some f.value }

/-- Shift the field's name view (`ValueField::shift`). -/
def ValueField.shift (f : ValueField) : ValueField := { f with name := f.name.shift }

/-- Modelled from the spec: `DataField::unexpected`, like the value-field
version, but a data field has no inline raw value to capture. -/
def DataField.unexpected (f : DataField) : Error :=
  { kind := .unexpected, name := some f.name.keys, value := none }

/-- Shift the field's name view (`DataField::shift`). -/
def DataField.shift (f : DataField) : DataField := { f with name := f.name.shift }

/-! ## Leaf binder protocol: `FromFormField` and its blanket `FromForm`

Embedding of `core/lib/src/form/from_form_field.rs`. A `FromFormField`
implementation is a record of its `from_value`, `from_data` and `default`
methods; the trait's provided bodies (returning the field's `unexpected`
error) are the record's defaults. -/

/-- The `FromFormField` trait surface for a value type `T`. -/
structure FromFormFieldImpl (T : Type) where
  from_value : ValueField → Except Errors T := fun f => .error [f.unexpected]
  from_data : DataField → Except Errors T := fun f => .error [f.unexpected]
  dflt : Option T := none

/-- `FromFieldContext`: the context of the blanket `FromForm` implementation
for a `FromFormField` type. -/
structure FromFieldContext (T : Type) where
  field_name : Option NameView
  field_value : Option String
  opts : Options
  value : Option (Except Errors T)
  pushes : Nat

namespace FromFieldContext

variable {T : Type}

/-- `FromFieldContext::can_push`: increments the attempt counter on every
call and reports whether no result has been stored yet. Returns the
updated context together with the answer. -/
def can_push (c : FromFieldContext T) : Bool × FromFieldContext T :=
  let c := { c with pushes := c.pushes + 1 }
  (c.value.isNone, c)

/-- The closure `is_unexpected` inside `FromFieldContext::push`: does the
error list end in an `Unexpected` error? -/
def is_unexpected (es : Errors) : Bool :=
  (Errors.last? es).elim false Error.isUnexpected

/-- `FromFieldContext::push`: record the field name; store the attempt's
result, except that under lenient mode an `Unexpected` failure is dropped. -/
def push (c : FromFieldContext T) (name : NameView) (result : Except Errors T) :
    FromFieldContext T :=
  let c := { c with field_name := some name }
  match result with
  | .error e =>
    if !c.opts.strict && is_unexpected e then c
    else { c with value := some (.error e) }
  | result => { c with value := some result }

end FromFieldContext

/-- `FromForm::init` of the blanket implementation. -/
def leafInit (T : Type) (opts : Options) : FromFieldContext T :=
  { opts := opts, field_name := none, field_value := none, value := none, pushes := 0 }

/-- `FromForm::push_value` of the blanket implementation: on a pushable
context, record the raw value and push the outcome of `from_value`. -/
def leafPushValue {T : Type} (ff : FromFormFieldImpl T)
    (c : FromFieldContext T) (field : ValueField) : FromFieldContext T :=
  match c.can_push with
  | (true, c) =>
    let c := { c with field_value := some field.value }
    c.push field.name (ff.from_value field)
  | (false, c) => c

/-- `FromForm::push_data` of the blanket implementation. -/
def leafPushData {T : Type} (ff : FromFormFieldImpl T)
    (c : FromFieldContext T) (field : DataField) : FromFieldContext T :=
  match c.can_push with
  | (true, c) => c.push field.name (ff.from_data field)
  | (false, c) => c

/-- `FromForm::finalize` of the blanket implementation: resolve the stored
result, the `Duplicate` check and the default fallback, then annotate any
errors with the recorded field name and raw value. -/
def leafFinalize {T : Type} (ff : FromFormFieldImpl T)
    (c : FromFieldContext T) : Except Errors T :=
  let post : Errors → Except Errors T := fun errors =>
    let errors := match c.field_name with
      | some name => Errors.set_name name.keys errors
      | none => errors
    let errors := match c.field_value with
      | some v => Errors.set_value v errors
      | none => errors
    .error errors
  match c.value with
  | some (.ok val) =>
    if !c.opts.strict || c.pushes ≤ 1 then .ok val
    else post (Errors.ofKind .duplicate)
  | some (.error e) => post e
  | none =>
    match ff.dflt with
    | some d => .ok d
    | none => post (Errors.ofKind .missing)

/-! ## Built-in leaf binders -/

/-- ASCII case-insensitive string comparison, the `as_uncased` equality the
boolean binder uses (the `uncased` crate folds ASCII case only, as does
`Char.toLower`). -/
def uncasedEq (a b : String) : Bool :=
  a.data.map Char.toLower == b.data.map Char.toLower

/-- `<bool as FromFormField>::from_value`: the case-insensitive token sets
on/yes/true and off/no/false; anything else forces a parse-bool failure. -/
def bool_from_value (field : ValueField) : Except Errors Bool :=
  if uncasedEq field.value "on" || uncasedEq field.value "yes"
      || uncasedEq field.value "true" then
    .ok true
  else if uncasedEq field.value "off" || uncasedEq field.value "no"
      || uncasedEq field.value "false" then
    .ok false
  else
    .error [Error.ofKind (.conversion "provided string was not `true` or `false`")]

/-- The full `FromFormField` implementation for `bool`: `from_value` above,
no `from_data` override, and a built-in default of `false`. -/
def boolImpl : FromFormFieldImpl Bool :=
  { from_value := bool_from_value, dflt := some false }

/-- Parse an unsigned decimal numeral from a character list, accumulating
left to right; any non-digit character fails the parse. -/
def parseNatDigits (cs : List Char) (acc : Nat) : Option Nat :=
  match cs with
  | [] => some acc
  | c :: rest =>
    if c.isDigit then parseNatDigits rest (acc * 10 + (c.toNat - 48))
    else none

/-- `from_value` of the `impl_with_parse!` instance for `u16`
(`Ok(field.value.parse()?)`), with parse failures mapped to conversion
errors. The optional leading `+` sign of the Rust integer grammar is not
modelled. Used as representative leaf material for the composite binder. -/
def u16_from_value (field : ValueField) : Except Errors Nat :=
  match field.value.data with
  | [] => .error [Error.ofKind (.conversion "cannot parse integer from empty string")]
  | cs =>
    match parseNatDigits cs 0 with
    | some n =>
      if n < 65536 then .ok n
      else .error
        [Error.ofKind (.conversion "number too large to fit in target type")]
    | none => .error [Error.ofKind (.conversion "invalid digit found in string")]

/-- The `FromFormField` implementation for `u16`: required (no default). -/
def u16Impl : FromFormFieldImpl Nat :=
  { from_value := u16_from_value }

/-! ## Composite binder: the contract generated by `derive(FromForm)`

Embedding of `core/codegen/src/derive/from_form.rs`. The derive emits, per
declared struct, a context holding one lazily-created child context per
field plus an error aggregator and the last-seen parent path; `push_value`
and `push_data` dispatch on the leading lossy key (the `fields_map`
function); `finalize` folds every field, merging failures, then runs the
field- and struct-level validators. The emitted code is uniform in the
declared field list, so it is modelled once, generically: a `StructSpec`
carries each field's name, its child binder (the `FromForm` surface of the
field's type) and its validators. -/

/-- The `FromForm` surface of one field's type, as the generated code uses
it: `Context`, `init`, `push_value`, `push_data`, `finalize`, `default`. -/
structure FieldBinder where
  Val : Type
  Ctx : Type
  init : Options → Ctx
  push_value : Ctx → ValueField → Ctx
  push_data : Ctx → DataField → Ctx
  finalize : Ctx → Except Errors Val
  dflt : Option Val

/-- One derived struct: its declared fields in declaration order, each with
a name, a child binder, its field-level validators (the concatenated error
payloads; an empty list is a pass) and its struct-level validators (which
see the whole constructed value). -/
structure StructSpec where
  n : Nat
  fieldName : Fin n → String
  binder : Fin n → FieldBinder
  fieldValidate : (i : Fin n) → (binder i).Val → Errors
  structValidate : (i : Fin n) → ((j : Fin n) → (binder j).Val) → Errors

/-- The bound value of a derived struct: one value per declared field. -/
def StructVal (S : StructSpec) : Type := (i : Fin S.n) → (S.binder i).Val

/-- The generated `FromFormGeneratedContext`: options, error aggregator,
last-seen parent path, and one optional child context per declared field. -/
structure CompCtx (S : StructSpec) where
  opts : Options
  errors : Errors
  parent : List String
  child : (i : Fin S.n) → Option ((S.binder i).Ctx)

/-- The generated `init`: empty errors, no parent, every child `None`. -/
def comp_init (S : StructSpec) (opts : Options) : CompCtx S :=
  { opts := opts, errors := [], parent := [], child := fun _ => none }

/-- The dispatch of the generated `match` over the declared field names:
the first declared field whose name equals the key, if any. -/
def findField (S : StructSpec) (k : String) : Option (Fin S.n) :=
  (List.finRange S.n).find? (fun i => S.fieldName i == k)

/-- The generated `push_value` (`fields_map`): record the parent path, then
either route the shifted event to the matching field's child context
(created on first use via the child's `init`), or apply the unknown-key
policy: `_method` and lenient mode accept silently, strict mode records the
event's `unexpected` error. -/
def comp_push_value {S : StructSpec} (c : CompCtx S) (f : ValueField) : CompCtx S :=
  match findField S f.name.key_lossy with
  | some i =>
    { c with parent := f.name.parent,
             child := Function.update c.child i
               (some ((S.binder i).push_value
                 ((c.child i).getD ((S.binder i).init c.opts)) f.shift)) }
  | none =>
    if f.name.key_lossy == "_method" || !c.opts.strict then
      { c with parent := f.name.parent }
    else
      { c with parent := f.name.parent, errors := c.errors ++ [f.unexpected] }

/-- The generated `push_data`: identical dispatch to `comp_push_value`. -/
def comp_push_data {S : StructSpec} (c : CompCtx S) (f : DataField) : CompCtx S :=
  match findField S f.name.key_lossy with
  | some i =>
    { c with parent := f.name.parent,
             child := Function.update c.child i
               (some ((S.binder i).push_data
                 ((c.child i).getD ((S.binder i).init c.opts)) f.shift)) }
  | none =>
    if f.name.key_lossy == "_method" || !c.opts.strict then
      { c with parent := f.name.parent }
    else
      { c with parent := f.name.parent, errors := c.errors ++ [f.unexpected] }

/-- The core of the per-field finalization expression emitted inside the
generated `finalize`, before error annotation: finalize the child context
if one was created, otherwise fall back to the field type's `default()` or
a `Missing` error; then run the field-level validators on a successful
value. -/
def finalize_field_core {S : StructSpec} (c : CompCtx S) (i : Fin S.n) :
    Except Errors ((S.binder i).Val) :=
  let r : Except Errors ((S.binder i).Val) :=
    match c.child i with
    | some ctx => (S.binder i).finalize ctx
    | none =>
      match (S.binder i).dflt with
      | some d => .ok d
      | none => .error (Errors.ofKind .missing)
  match r with
  | .ok v =>
    let es := S.fieldValidate i v
    if es.isEmpty then .ok v else .error es
  | .error e => .error e

/-- The full per-field finalization expression: the core above, with any
failure annotated with the field's name path (`.map_err(with_name)`) and
an empty failure set replaced by `Unknown`. -/
def finalize_field {S : StructSpec} (c : CompCtx S) (i : Fin S.n) :
    Except Errors ((S.binder i).Val) :=
  match finalize_field_core c i with
  | .ok v => .ok v
  | .error e =>
    if Errors.isEmpty (Errors.with_name (c.parent ++ [S.fieldName i]) e) then
      .error (Errors.ofKind .unknown)
    else .error (Errors.with_name (c.parent ++ [S.fieldName i]) e)

/-- The error payload of a per-field result (`[]` for a success). -/
def errPart {α : Type} : Except Errors α → Errors
  | .ok _ => []
  | .error e => e

/-- Whether a per-field result is a success. -/
def isOkE {α : Type} : Except Errors α → Bool
  | .ok _ => true
  | .error _ => false

/-- Extract the value of a successful per-field result. -/
def getOkE {α : Type} : (x : Except Errors α) → isOkE x = true → α
  | .ok a, _ => a

/-- The aggregate the generated `finalize` builds by extending the
context's errors with every field's failure payload, in field order. -/
def comp_errors {S : StructSpec} (c : CompCtx S) : Errors :=
  c.errors ++ List.flatten ((List.finRange S.n).map
    (fun i => errPart (finalize_field c i)))

/-- The struct-level validator failures, each annotated with its field's
name path, in field order. -/
def comp_verrs {S : StructSpec} (c : CompCtx S) (o : StructVal S) : Errors :=
  List.flatten ((List.finRange S.n).map
    (fun i => Errors.with_name (c.parent ++ [S.fieldName i]) (S.structValidate i o)))

/-- The unwrapping of the per-field options in the generated `finalize`
(`ident.unwrap()`): when every field finalized successfully, the
constructed struct value. -/
def comp_vals {S : StructSpec} (c : CompCtx S) : Option (StructVal S) :=
  if hok : (List.finRange S.n).all (fun i => isOkE (finalize_field c i)) = true then
    some (fun i => getOkE (finalize_field c i)
      (List.all_eq_true.mp hok i (List.mem_finRange i)))
  else none

/-- The generated `finalize`: finalize every declared field in order,
extending the aggregate with each failure; if the aggregate is non-empty,
return it without constructing the value; otherwise construct the struct
(the source unwraps each field, justified because a failed field always
contributes a non-empty error list), run the struct-level validators with
their name annotations, and succeed only if the aggregate is still empty. -/
def comp_finalize {S : StructSpec} (c : CompCtx S) : Except Errors (StructVal S) :=
  if Errors.isEmpty (comp_errors c) then
    match comp_vals c with
    | some o =>
      if Errors.isEmpty (comp_errors c ++ comp_verrs c o) then .ok o
      else .error (comp_errors c ++ comp_verrs c o)
    | none => .error (comp_errors c)
  else .error (comp_errors c)

/-- A leaf type used as a composite's field: the blanket `FromForm`
implementation packaged as a `FieldBinder`. Its `default()` is the
provided body of the `FromForm` trait, modelled from the spec (the trait
definition in `form/from_form.rs` is not among the given sources):
finalizing a freshly initialized lenient context and discarding errors. -/
def leafBinder {T : Type} (ff : FromFormFieldImpl T) : FieldBinder :=
  { Val := T
    Ctx := FromFieldContext T
    init := fun opts => leafInit T opts
    push_value := leafPushValue ff
    push_data := leafPushData ff
    finalize := leafFinalize ff
    dflt := (leafFinalize ff (leafInit T { strict := false })).toOption }

/-! ## Temporary file sink

Embedding of `core/lib/src/data/temp_file.rs`. Filesystem operations are
modelled by an explicit environment `FsEnv` giving each primitive
operation's outcome (`none` = success, `some msg` = an I/O error), so
`persist_to` becomes a pure state transformer on the sink's location
state. The `spawn_blocking` join failure (a panic of the blocking task) is
a concurrency artifact outside this embedding and is not modelled. -/

/-- The `Either<TempPath, PathBuf>` location of a file-backed sink:
`temp` is the still-temporary placement (deleted on drop), `persisted` a
plain path recorded by a previous persist. -/
inductive TempFilePath where
  | temp (p : String)
  | persisted (p : String)
  deriving DecidableEq, Repr

/-- The `TempFile` value: file-backed or memory-buffered inline content. -/
inductive TempFile where
  | file (file_name : Option String) (content_type : Option String)
      (path : TempFilePath) (len : Nat)
  | buffered (content : String)
  deriving DecidableEq, Repr

/-- Outcomes of the filesystem primitives `persist_to` relies on. -/
structure FsEnv where
  persistTemp : String → String → Option String
  rename : String → String → Option String
  create : String → Option String
  write_all : String → String → Option String

/-- `TempFile::persist_to`: for a file-backed sink the location is first
replaced by the new destination (the source's `mem::replace`), then the old
location is acted on — a `TempPath::persist` for a temporary placement
(restoring the temporary path carried by the error on failure), an
`fs::rename` for a previously persisted path (restoring the previous path
on failure); a buffered sink is materialized by creating and writing the
destination afresh, becoming file-backed only if both steps succeed. -/
def TempFile.persist_to (env : FsEnv) (tf : TempFile) (new_path : String) :
    Except String Unit × TempFile :=
  match tf with
  | .file fn ct (.temp temp_path) len =>
    match env.persistTemp temp_path new_path with
    | none => (.ok (), .file fn ct (.persisted new_path) len)
    | some e => (.error e, .file fn ct (.temp temp_path) len)
  | .file fn ct (.persisted prev) len =>
    match env.rename prev new_path with
    | none => (.ok (), .file fn ct (.persisted new_path) len)
    | some e => (.error e, .file fn ct (.persisted prev) len)
  | .buffered content =>
    match env.create new_path with
    | some e => (.error e, .buffered content)
    | none =>
      match env.write_all new_path content with
      | some e => (.error e, .buffered content)
      | none =>
        (.ok (), .file none none (.persisted new_path) content.utf8ByteSize)

/-- `TempFile::len`: the recorded length, or the buffered byte length. -/
def TempFile.len : TempFile → Nat
  | .file _ _ _ len => len
  | .buffered content => content.utf8ByteSize

/-- `TempFile::path`: the on-disk location, if any. -/
def TempFile.path : TempFile → Option String
  | .file _ _ (.temp p) _ => some p
  | .file _ _ (.persisted p) _ => some p
  | .buffered _ => none

/-- `TempFile::file_name`: the client-specified name, if any. -/
def TempFile.file_name : TempFile → Option String
  | .file fn _ _ _ => fn
  | .buffered _ => none

/-- `TempFile::content_type`: the client-specified content type, if any. -/
def TempFile.content_type : TempFile → Option String
  | .file _ ct _ _ => ct
  | .buffered _ => none

/-- The stream accounting attached to a `Capped` value (`N` in the source):
bytes written and whether the stream completed within its limit. -/
structure StreamN where
  written : Nat
  complete : Bool
  deriving DecidableEq, Repr

/-- `Capped<T>`: a value together with its stream accounting. -/
structure Capped (T : Type) where
  value : T
  n : StreamN
  deriving DecidableEq, Repr

/-- `<Capped<TempFile> as FromFormField>::from_value`: an inline value
field becomes a `Buffered` sink whose accounting is complete with the
value's byte length written. -/
def tempFile_from_value (field : ValueField) : Except Errors (Capped TempFile) :=
  let n : StreamN := { written := field.value.utf8ByteSize, complete := true }
  .ok { value := .buffered field.value, n := n }

/-! ## Concrete material used by the witnesses -/

instance {ε α : Type} [DecidableEq ε] [DecidableEq α] : DecidableEq (Except ε α)
  | .ok a, .ok b =>
    if h : a = b then .isTrue (by rw [h]) else .isFalse (by simp [h])
  | .ok _, .error _ => .isFalse (by simp)
  | .error _, .ok _ => .isFalse (by simp)
  | .error a, .error b =>
    if h : a = b then .isTrue (by rw [h]) else .isFalse (by simp [h])

/-- The leaf for `&str` (`Capped<&str>::from_value` composed with the
uncapping wrapper of `impl_strict_from_form_field_from_capped!`): the
decoded value is returned directly. -/
def strImpl : FromFormFieldImpl String :=
  { from_value := fun f => .ok f.value }

/-- A custom `FromFormField` implementation in the style of the trait's
doc-comment example: it accepts the single token `v` from a value field
and treats every other value event as structurally unexpected. Used to
exercise the lenient drop of `Unexpected` outcomes. -/
def pickyImpl : FromFormFieldImpl Bool :=
  { from_value := fun f => if f.value == "v" then .ok true else .error [f.unexpected] }

/-- The field path `a`, viewed from its head. -/
def nvA : NameView := NameView.ofKeys ["a"]

/-- The field path `a.b`, viewed from its head. -/
def nvAB : NameView := NameView.ofKeys ["a", "b"]

/-- A filesystem in which every primitive operation succeeds. -/
def envAllOk : FsEnv :=
  { persistTemp := fun _ _ => none, rename := fun _ _ => none,
    create := fun _ => none, write_all := fun _ _ => none }

/-- A filesystem in which renames fail (for instance across devices)
while the other primitives succeed. -/
def envFailRename : FsEnv :=
  { persistTemp := fun _ _ => some "EXDEV", rename := fun _ _ => some "EXDEV",
    create := fun _ => none, write_all := fun _ _ => none }

/-- The scenario composite of §8: fields `name` (a required string leaf)
and `age` (a `u16` leaf), with no validators. -/
def personSpec : StructSpec :=
  { n := 2
    fieldName := fun i => if i.val = 0 then "name" else "age"
    binder := fun i => if i.val = 0 then leafBinder strImpl else leafBinder u16Impl
    fieldValidate := fun _ _ => []
    structValidate := fun _ _ => [] }

/-- Scenario A context: events `name=Max`, `age=3`, strict options. -/
def ctxA : CompCtx personSpec :=
  comp_push_value
    (comp_push_value (comp_init personSpec { strict := true })
      { name := NameView.ofKeys ["name"], value := "Max" })
    { name := NameView.ofKeys ["age"], value := "3" }

/-- Scenario B context: the single event `age=three`, strict options. -/
def ctxB : CompCtx personSpec :=
  comp_push_value (comp_init personSpec { strict := true })
    { name := NameView.ofKeys ["age"], value := "three" }

/-- A leaf context for the nested field `a.b` after one shifted push of
the unparsable value `three`. -/
def convCtx : FromFieldContext Nat :=
  leafPushValue u16Impl (leafInit Nat { strict := true })
    { name := { keys := ["a", "b"], pos := 1 }, value := "three" }

/-- The `age` child context inside `ctxB`. -/
def ageCtx : FromFieldContext Nat :=
  leafPushValue u16Impl (leafInit Nat { strict := true })
    { name := { keys := ["age"], pos := 1 }, value := "three" }

/-! ## Leaf binder lemmas -/

theorem can_push_eq {T : Type} (c : FromFieldContext T) :
    c.can_push = (c.value.isNone, { c with pushes := c.pushes + 1 }) := rfl

theorem push_ok {T : Type} (c : FromFieldContext T) (n : NameView) (v : T) :
    c.push n (.ok v) = { c with field_name := some n, value := some (.ok v) } := rfl

theorem push_err {T : Type} (c : FromFieldContext T) (n : NameView) (e : Errors) :
    c.push n (.error e) =
      if !c.opts.strict && FromFieldContext.is_unexpected e then
        { c with field_name := some n }
      else
        { c with field_name := some n, value := some (.error e) } := rfl

theorem push_pushes {T : Type} (c : FromFieldContext T) (n : NameView)
    (r : Except Errors T) : (c.push n r).pushes = c.pushes := by
  cases r with
  | ok v => rw [push_ok]
  | error e => rw [push_err]; split <;> rfl

theorem leafPushValue_stored {T : Type} (ff : FromFormFieldImpl T)
    (c : FromFieldContext T) (f : ValueField) (r : Except Errors T)
    (h : c.value = some r) :
    leafPushValue ff c f = { c with pushes := c.pushes + 1 } := by
  unfold leafPushValue
  rw [can_push_eq, h]
  rfl

theorem leafPushValue_fresh {T : Type} (ff : FromFormFieldImpl T)
    (c : FromFieldContext T) (f : ValueField) (h : c.value = none) :
    leafPushValue ff c f =
      FromFieldContext.push
        { c with pushes := c.pushes + 1, field_value := some f.value }
        f.name (ff.from_value f) := by
  unfold leafPushValue
  rw [can_push_eq, h]
  rfl

theorem leafPushData_stored {T : Type} (ff : FromFormFieldImpl T)
    (c : FromFieldContext T) (f : DataField) (r : Except Errors T)
    (h : c.value = some r) :
    leafPushData ff c f = { c with pushes := c.pushes + 1 } := by
  unfold leafPushData
  rw [can_push_eq, h]
  rfl

theorem leafPushData_fresh {T : Type} (ff : FromFormFieldImpl T)
    (c : FromFieldContext T) (f : DataField) (h : c.value = none) :
    leafPushData ff c f =
      FromFieldContext.push { c with pushes := c.pushes + 1 }
        f.name (ff.from_data f) := by
  unfold leafPushData
  rw [can_push_eq, h]
  rfl

theorem leafPushValue_pushes {T : Type} (ff : FromFormFieldImpl T)
    (c : FromFieldContext T) (f : ValueField) :
    (leafPushValue ff c f).pushes = c.pushes + 1 := by
  cases h : c.value with
  | none => rw [leafPushValue_fresh ff c f h, push_pushes]
  | some r => rw [leafPushValue_stored ff c f r h]

theorem leafPushData_pushes {T : Type} (ff : FromFormFieldImpl T)
    (c : FromFieldContext T) (f : DataField) :
    (leafPushData ff c f).pushes = c.pushes + 1 := by
  cases h : c.value with
  | none => rw [leafPushData_fresh ff c f h, push_pushes]
  | some r => rw [leafPushData_stored ff c f r h]

/-! ## Claims about the leaf binder protocol -/

/-- C2: under strict options, two value pushes with individually valid
values into the same leaf context finalize to a `Duplicate` error
(annotated with the first event's path and raw value), not to either
value; and every `push_value`/`push_data` call increments the per-context
attempt counter, whether or not the attempt's result is stored. -/
theorem strict_duplicate_detection (T : Type) (ff : FromFormFieldImpl T)
    (opts : Options) (f1 f2 : ValueField) (v1 v2 : T)
    (hstrict : opts.strict = true)
    (h1 : ff.from_value f1 = .ok v1) (h2 : ff.from_value f2 = .ok v2) :
    leafFinalize ff (leafPushValue ff (leafPushValue ff (leafInit T opts) f1) f2) =
      .error [{ kind := .duplicate, name := some f1.name.keys, value := some f1.value }] ∧
    (∀ (c : FromFieldContext T) (g : ValueField),
        (leafPushValue ff c g).pushes = c.pushes + 1) ∧
    (∀ (c : FromFieldContext T) (g : DataField),
        (leafPushData ff c g).pushes = c.pushes + 1) := by
  refine ⟨?_, leafPushValue_pushes ff, leafPushData_pushes ff⟩
  have s1 : leafPushValue ff (leafInit T opts) f1 =
      { field_name := some f1.name, field_value := some f1.value, opts := opts,
        value := some (.ok v1), pushes := 1 } := by
    rw [leafPushValue_fresh ff _ f1 rfl, h1, push_ok]
    rfl
  have s2 : leafPushValue ff (leafPushValue ff (leafInit T opts) f1) f2 =
      { field_name := some f1.name, field_value := some f1.value, opts := opts,
        value := some (.ok v1), pushes := 2 } := by
    rw [s1, leafPushValue_stored ff _ f2 (.ok v1) rfl]
  rw [s2]
  simp [leafFinalize, hstrict, Errors.ofKind, Errors.set_name, Errors.set_value,
    Error.ofKind, Error.set_name, Error.set_value]

/-- C3: once a leaf context holds a stored result, a later
`push_value`/`push_data` only bumps the attempt counter — the stored
result, name and raw value are untouched and the later field is not even
parsed; and under lenient options an attempt classified `Unexpected` is
never stored, so a subsequent attempt can still bind the field. -/
theorem first_wins_push_semantics (T : Type) (ff : FromFormFieldImpl T) :
    (∀ (c : FromFieldContext T) (f : ValueField) (r : Except Errors T),
        c.value = some r → leafPushValue ff c f = { c with pushes := c.pushes + 1 }) ∧
    (∀ (c : FromFieldContext T) (f : DataField) (r : Except Errors T),
        c.value = some r → leafPushData ff c f = { c with pushes := c.pushes + 1 }) ∧
    (∀ (c : FromFieldContext T) (f : ValueField) (e : Errors),
        c.opts.strict = false → ff.from_value f = .error e →
        FromFieldContext.is_unexpected e = true →
        (leafPushValue ff c f).value = c.value) ∧
    (∀ (c : FromFieldContext T) (f : DataField) (e : Errors),
        c.opts.strict = false → ff.from_data f = .error e →
        FromFieldContext.is_unexpected e = true →
        (leafPushData ff c f).value = c.value) ∧
    (∀ (opts : Options) (f1 f2 : ValueField) (e : Errors) (v : T),
        opts.strict = false → ff.from_value f1 = .error e →
        FromFieldContext.is_unexpected e = true → ff.from_value f2 = .ok v →
        (leafPushValue ff (leafPushValue ff (leafInit T opts) f1) f2).value =
          some (.ok v)) := by
  have hval : ∀ (c : FromFieldContext T) (f : ValueField) (e : Errors),
      c.opts.strict = false → ff.from_value f = .error e →
      FromFieldContext.is_unexpected e = true →
      (leafPushValue ff c f).value = c.value := by
    intro c f e hs hfv hu
    cases h : c.value with
    | some r => rw [leafPushValue_stored ff c f r h]; exact h
    | none =>
      rw [leafPushValue_fresh ff c f h, hfv, push_err]
      simp [hs, hu, h]
  refine ⟨?_, ?_, hval, ?_, ?_⟩
  · intro c f r h; exact leafPushValue_stored ff c f r h
  · intro c f r h; exact leafPushData_stored ff c f r h
  · intro c f e hs hfv hu
    cases h : c.value with
    | some r => rw [leafPushData_stored ff c f r h]; exact h
    | none =>
      rw [leafPushData_fresh ff c f h, hfv, push_err]
      simp [hs, hu, h]
  · intro opts f1 f2 e v hs hf1 hu hf2
    have d1 : (leafPushValue ff (leafInit T opts) f1).value = none := by
      rw [hval (leafInit T opts) f1 e hs hf1 hu]
      rfl
    cases hc : leafPushValue ff (leafInit T opts) f1 with
    | mk fn fv o val p =>
      have hvnone : val = none := by rw [hc] at d1; exact d1
      subst hvnone
      rw [leafPushValue_fresh ff _ f2 rfl, hf2, push_ok]

/-- C4: finalizing a leaf context into which nothing was ever pushed
returns the type's default when one exists — never `Missing` — and yields
a `Missing` error exactly when the type has no default. -/
theorem leaf_default_fallback (T : Type) (ff : FromFormFieldImpl T) (opts : Options) :
    (∀ d : T, ff.dflt = some d → leafFinalize ff (leafInit T opts) = .ok d) ∧
    (ff.dflt = none →
        leafFinalize ff (leafInit T opts) = .error (Errors.ofKind .missing)) := by
  constructor
  · intro d hd
    simp [leafFinalize, leafInit, hd]
  · intro hd
    simp [leafFinalize, leafInit, hd]

/-! ### Witnesses for the leaf claims -/

/-- C2 witness: two valid boolean pushes (`yes` then `true`) under strict
options finalize to a single `Duplicate` error carrying path `a` and raw
value `yes`; the attempt counter moves on both push kinds. -/
theorem strict_duplicate_detection_witness :
    leafFinalize boolImpl
      (leafPushValue boolImpl
        (leafPushValue boolImpl (leafInit Bool { strict := true })
          { name := nvA, value := "yes" })
        { name := nvA, value := "true" }) =
      .error [{ kind := .duplicate, name := some ["a"], value := some "yes" }] ∧
    (leafPushValue boolImpl (leafInit Bool { strict := true })
        { name := nvA, value := "on" }).pushes =
      (leafInit Bool { strict := true }).pushes + 1 ∧
    (leafPushData boolImpl (leafInit Bool { strict := true })
        { name := nvA }).pushes =
      (leafInit Bool { strict := true }).pushes + 1 := by
  have h := strict_duplicate_detection Bool boolImpl { strict := true }
    { name := nvA, value := "yes" } { name := nvA, value := "true" }
    true true rfl (by rfl) (by rfl)
  exact ⟨h.1, h.2.1 _ _, h.2.2 _ _⟩

/-- C3 witness: with a stored boolean result, a later push only bumps the
counter; under lenient options the picky leaf's unexpected outcome is
dropped and a subsequent valid attempt still binds. -/
theorem first_wins_push_semantics_witness :
    leafPushValue pickyImpl
      { field_name := some nvA, field_value := some "v", opts := { strict := false },
        value := some (.ok true), pushes := 1 }
      { name := nvA, value := "w" } =
      { field_name := some nvA, field_value := some "v", opts := { strict := false },
        value := some (.ok true), pushes := 2 } ∧
    (leafPushValue pickyImpl (leafInit Bool { strict := false })
        { name := nvA, value := "w" }).value = (leafInit Bool { strict := false }).value ∧
    (leafPushValue pickyImpl
        (leafPushValue pickyImpl (leafInit Bool { strict := false })
          { name := nvA, value := "w" })
        { name := nvA, value := "v" }).value = some (.ok true) := by
  have h := first_wins_push_semantics Bool pickyImpl
  refine ⟨h.1 _ { name := nvA, value := "w" } (.ok true) rfl, ?_, ?_⟩
  · exact h.2.2.1 _ { name := nvA, value := "w" }
      [ValueField.unexpected { name := nvA, value := "w" }] rfl (by rfl) (by rfl)
  · exact h.2.2.2.2 { strict := false } { name := nvA, value := "w" }
      { name := nvA, value := "v" }
      [ValueField.unexpected { name := nvA, value := "w" }] true rfl (by rfl) (by rfl) (by rfl)

/-- C4 witness: a never-pushed `bool` context finalizes to the built-in
default `false`; a never-pushed `u16` context finalizes to `Missing`. -/
theorem leaf_default_fallback_witness :
    leafFinalize boolImpl (leafInit Bool { strict := true }) = .ok false ∧
    leafFinalize u16Impl (leafInit Nat { strict := true }) =
      .error (Errors.ofKind .missing) :=
  ⟨(leaf_default_fallback Bool boolImpl { strict := true }).1 false rfl,
   (leaf_default_fallback Nat u16Impl { strict := true }).2 rfl⟩

/-! ## Claims about the boolean leaf and the temporary file sink -/

theorem uncasedEq_excl (v a b : String) (ha : uncasedEq v a = true)
    (hne : a.data.map Char.toLower ≠ b.data.map Char.toLower) :
    uncasedEq v b = false := by
  unfold uncasedEq at ha ⊢
  rw [eq_of_beq ha]
  exact beq_eq_false_iff_ne.mpr hne

/-- C7: the boolean leaf binds the case-insensitive tokens on/yes/true to
`true` and off/no/false to `false`, fails with a `Conversion` error on any
other token, and a never-supplied boolean finalizes to the built-in
default `false`. -/
theorem bool_binder_tokens (field : ValueField) (opts : Options) :
    (List.any ["on", "yes", "true"] (fun t => uncasedEq field.value t) = true →
        bool_from_value field = .ok true) ∧
    (List.any ["off", "no", "false"] (fun t => uncasedEq field.value t) = true →
        bool_from_value field = .ok false) ∧
    (List.all ["on", "yes", "true", "off", "no", "false"]
        (fun t => !uncasedEq field.value t) = true →
        bool_from_value field =
          .error [Error.ofKind
            (.conversion "provided string was not `true` or `false`")]) ∧
    leafFinalize boolImpl (leafInit Bool opts) = .ok false := by
  refine ⟨?_, ?_, ?_, ?_⟩
  · intro h
    simp only [List.any_cons, List.any_nil, Bool.or_false, Bool.or_eq_true] at h
    unfold bool_from_value
    rcases h with h | h | h <;> simp [h]
  · intro h
    simp only [List.any_cons, List.any_nil, Bool.or_false, Bool.or_eq_true] at h
    unfold bool_from_value
    rcases h with h | h | h <;>
      rw [uncasedEq_excl _ _ "on" h (by decide),
          uncasedEq_excl _ _ "yes" h (by decide),
          uncasedEq_excl _ _ "true" h (by decide), h] <;> simp
  · intro h
    simp only [List.all_cons, List.all_nil, Bool.and_true, Bool.and_eq_true,
      Bool.not_eq_true'] at h
    obtain ⟨h1, h2, h3, h4, h5, h6⟩ := h
    unfold bool_from_value
    rw [h1, h2, h3, h4, h5, h6]
    simp
  · simp [leafFinalize, leafInit, boolImpl]

/-- C7 witness: scenario C — value `YES` binds `true`, `OFF` binds
`false`, `nope` is a conversion failure; absence finalizes to `false`. -/
theorem bool_binder_tokens_witness :
    bool_from_value { name := nvA, value := "YES" } = .ok true ∧
    bool_from_value { name := nvA, value := "OFF" } = .ok false ∧
    bool_from_value { name := nvA, value := "nope" } =
      .error [Error.ofKind
        (.conversion "provided string was not `true` or `false`")] ∧
    leafFinalize boolImpl (leafInit Bool { strict := true }) = .ok false := by
  have h1 := bool_binder_tokens { name := nvA, value := "YES" } { strict := true }
  have h2 := bool_binder_tokens { name := nvA, value := "OFF" } { strict := true }
  have h3 := bool_binder_tokens { name := nvA, value := "nope" } { strict := true }
  exact ⟨h1.1 (by decide), h2.2.1 (by decide), h3.2.2.1 (by decide), h1.2.2.2⟩

/-- C10: binding a `TempFile` from an inline value field yields a buffered
sink: no path, no file name, no content type, a length equal to the byte
length of the inline text, and a complete `Capped` accounting with exactly
that many bytes written. -/
theorem buffered_from_value (field : ValueField) :
    tempFile_from_value field =
      .ok { value := .buffered field.value,
            n := { written := field.value.utf8ByteSize, complete := true } } ∧
    (TempFile.buffered field.value).path = none ∧
    (TempFile.buffered field.value).file_name = none ∧
    (TempFile.buffered field.value).content_type = none ∧
    (TempFile.buffered field.value).len = field.value.utf8ByteSize :=
  ⟨rfl, rfl, rfl, rfl, rfl⟩

/-- C8: whenever `persist_to` fails — the temporary-path persist, the
rename of a previously persisted file, or the fresh create/write of a
buffered sink — the sink's location state after the call is exactly what
it was before the call, so the caller can retry. -/
theorem persist_to_rollback (env : FsEnv) (tf : TempFile) (p e : String)
    (h : (TempFile.persist_to env tf p).1 = .error e) :
    (TempFile.persist_to env tf p).2 = tf := by
  cases tf with
  | file fn ct pth len =>
    cases pth with
    | temp tp =>
      cases hp : env.persistTemp tp p with
      | none => simp [TempFile.persist_to, hp] at h
      | some msg => simp [TempFile.persist_to, hp]
    | persisted pv =>
      cases hp : env.rename pv p with
      | none => simp [TempFile.persist_to, hp] at h
      | some msg => simp [TempFile.persist_to, hp]
  | buffered content =>
    cases hc : env.create p with
    | some msg => simp [TempFile.persist_to, hc]
    | none =>
      cases hw : env.write_all p content with
      | some msg => simp [TempFile.persist_to, hc, hw]
      | none => simp [TempFile.persist_to, hc, hw] at h

/-- C8 witness: a failing rename of a previously persisted file leaves the
sink at its previous location. -/
theorem persist_to_rollback_witness :
    (TempFile.persist_to envFailRename
        (.file none none (.persisted "d0") 3) "d1").1 = .error "EXDEV" ∧
    (TempFile.persist_to envFailRename
        (.file none none (.persisted "d0") 3) "d1").2 =
      .file none none (.persisted "d0") 3 :=
  ⟨rfl, persist_to_rollback envFailRename (.file none none (.persisted "d0") 3)
    "d1" "EXDEV" rfl⟩

/-- C9: a successful persist of a file-backed sink records the destination
as a persisted path: `path()` then returns the first destination, and a
second persist renames from that first destination — not from the stale
original temporary path — moving to the second destination on success and
staying at the first on failure. -/
theorem persist_to_twice (env1 env2 : FsEnv) (fn ct : Option String)
    (pth : TempFilePath) (len : Nat) (d1 d2 : String)
    (h : (TempFile.persist_to env1 (.file fn ct pth len) d1).1 = .ok ()) :
    (TempFile.persist_to env1 (.file fn ct pth len) d1).2 =
      .file fn ct (.persisted d1) len ∧
    (TempFile.persist_to env1 (.file fn ct pth len) d1).2.path = some d1 ∧
    TempFile.persist_to env2 (.file fn ct (.persisted d1) len) d2 =
      (match env2.rename d1 d2 with
       | none => (.ok (), .file fn ct (.persisted d2) len)
       | some e => (.error e, .file fn ct (.persisted d1) len)) := by
  have h1 : (TempFile.persist_to env1 (.file fn ct pth len) d1).2 =
      .file fn ct (.persisted d1) len := by
    cases pth with
    | temp tp =>
      cases hp : env1.persistTemp tp d1 with
      | none => simp [TempFile.persist_to, hp]
      | some msg => simp [TempFile.persist_to, hp] at h
    | persisted pv =>
      cases hp : env1.rename pv d1 with
      | none => simp [TempFile.persist_to, hp]
      | some msg => simp [TempFile.persist_to, hp] at h
  refine ⟨h1, ?_, rfl⟩
  rw [h1]
  rfl

/-- C9 witness: persisting a temporary file to `d1` succeeds and the
second persist to `d2` is a rename from `d1`. -/
theorem persist_to_twice_witness :
    (TempFile.persist_to envAllOk (.file none none (.temp "t0") 3) "d1").2 =
      .file none none (.persisted "d1") 3 ∧
    (TempFile.persist_to envAllOk (.file none none (.temp "t0") 3) "d1").2.path =
      some "d1" ∧
    TempFile.persist_to envAllOk (.file none none (.persisted "d1") 3) "d2" =
      (match envAllOk.rename "d1" "d2" with
       | none => (.ok (), .file none none (.persisted "d2") 3)
       | some e => (.error e, .file none none (.persisted "d1") 3)) :=
  persist_to_twice envAllOk envAllOk none none (.temp "t0") 3 "d1" "d2" rfl

/-! ## Composite binder lemmas -/

theorem with_name_isEmpty (p : List String) (es : Errors) :
    Errors.isEmpty (Errors.with_name p es) = Errors.isEmpty es := by
  cases es <;> rfl

theorem getOkE_spec {α : Type} (x : Except Errors α) (h : isOkE x = true) :
    x = .ok (getOkE x h) := by
  cases x with
  | ok a => rfl
  | error e => simp [isOkE] at h

theorem finalize_field_isOk {S : StructSpec} (c : CompCtx S) (i : Fin S.n) :
    isOkE (finalize_field c i) = isOkE (finalize_field_core c i) := by
  cases hc : finalize_field_core c i with
  | ok v => simp [finalize_field, hc, isOkE]
  | error e =>
    simp only [finalize_field, hc]
    split <;> simp [isOkE]

theorem finalize_field_ok_iff {S : StructSpec} (c : CompCtx S) (i : Fin S.n)
    (v : (S.binder i).Val) :
    finalize_field c i = .ok v ↔ finalize_field_core c i = .ok v := by
  cases hc : finalize_field_core c i with
  | ok w => simp [finalize_field, hc]
  | error e =>
    simp only [finalize_field, hc]
    split <;> simp

theorem finalize_field_error_ne_nil {S : StructSpec} (c : CompCtx S) (i : Fin S.n)
    (e : Errors) (h : finalize_field c i = .error e) : e ≠ [] := by
  cases hc : finalize_field_core c i with
  | ok v => simp [finalize_field, hc] at h
  | error e0 =>
    simp only [finalize_field, hc] at h
    split at h
    · injection h with h2
      rw [← h2]
      simp [Errors.ofKind, Error.ofKind]
    · rename_i hEmp
      injection h with h2
      rw [← h2]
      intro hnil
      rw [hnil] at hEmp
      exact hEmp rfl

theorem comp_errors_isEmpty_iff {S : StructSpec} (c : CompCtx S) :
    Errors.isEmpty (comp_errors c) = true ↔
      (c.errors = [] ∧ ∀ i : Fin S.n, isOkE (finalize_field c i) = true) := by
  unfold comp_errors Errors.isEmpty
  rw [List.isEmpty_iff, List.append_eq_nil, List.flatten_eq_nil_iff]
  constructor
  · rintro ⟨h1, h2⟩
    refine ⟨h1, fun i => ?_⟩
    have hmem : errPart (finalize_field c i) ∈
        List.map (fun j => errPart (finalize_field c j)) (List.finRange S.n) :=
      List.mem_map.mpr ⟨i, List.mem_finRange i, rfl⟩
    have he := h2 _ hmem
    cases hfi : finalize_field c i with
    | ok v => rfl
    | error e =>
      exfalso
      rw [hfi] at he
      exact (finalize_field_error_ne_nil c i e hfi) (by simpa [errPart] using he)
  · rintro ⟨h1, h2⟩
    refine ⟨h1, ?_⟩
    intro s hs
    obtain ⟨i, _, rfl⟩ := List.mem_map.mp hs
    have hi := h2 i
    cases hfi : finalize_field c i with
    | ok v => rfl
    | error e =>
      rw [hfi] at hi
      simp [isOkE] at hi

theorem comp_finalize_not_ok_of_errors {S : StructSpec} (c : CompCtx S)
    (h : c.errors ≠ []) : isOkE (comp_finalize c) = false := by
  have hF : Errors.isEmpty (comp_errors c) = false := by
    unfold comp_errors Errors.isEmpty
    rw [List.isEmpty_eq_false]
    intro h0
    exact h (List.append_eq_nil.mp h0).1
  unfold comp_finalize
  simp [hF, isOkE]

theorem finalize_field_core_parent {S : StructSpec} (c : CompCtx S)
    (p : List String) (i : Fin S.n) :
    finalize_field_core { c with parent := p } i = finalize_field_core c i := rfl

theorem finalize_field_isOk_parent {S : StructSpec} (c : CompCtx S)
    (p : List String) (i : Fin S.n) :
    isOkE (finalize_field { c with parent := p } i) = isOkE (finalize_field c i) := by
  rw [finalize_field_isOk, finalize_field_isOk, finalize_field_core_parent]

theorem finalize_field_ok_parent {S : StructSpec} (c : CompCtx S)
    (p : List String) (i : Fin S.n) (v : (S.binder i).Val) :
    finalize_field { c with parent := p } i = .ok v ↔ finalize_field c i = .ok v := by
  rw [finalize_field_ok_iff, finalize_field_ok_iff, finalize_field_core_parent]

theorem comp_errors_isEmpty_parent {S : StructSpec} (c : CompCtx S) (p : List String) :
    Errors.isEmpty (comp_errors { c with parent := p }) =
      Errors.isEmpty (comp_errors c) := by
  apply Bool.coe_iff_coe.mp
  rw [comp_errors_isEmpty_iff, comp_errors_isEmpty_iff]
  constructor
  · rintro ⟨h1, h2⟩
    exact ⟨h1, fun i => by rw [← finalize_field_isOk_parent c p i]; exact h2 i⟩
  · rintro ⟨h1, h2⟩
    exact ⟨h1, fun i => by rw [finalize_field_isOk_parent c p i]; exact h2 i⟩

theorem comp_verrs_isEmpty_parent {S : StructSpec} (c : CompCtx S) (p : List String)
    (o : StructVal S) :
    Errors.isEmpty (comp_verrs { c with parent := p } o) =
      Errors.isEmpty (comp_verrs c o) := by
  apply Bool.coe_iff_coe.mp
  unfold comp_verrs Errors.isEmpty
  rw [List.isEmpty_iff, List.isEmpty_iff, List.flatten_eq_nil_iff,
    List.flatten_eq_nil_iff]
  constructor <;> intro h s hs <;> obtain ⟨i, hi, rfl⟩ := List.mem_map.mp hs
  · have := h (Errors.with_name ({ c with parent := p }.parent ++ [S.fieldName i])
      (S.structValidate i o)) (List.mem_map.mpr ⟨i, hi, rfl⟩)
    unfold Errors.with_name Errors.set_name at this ⊢
    rw [List.map_eq_nil_iff] at this ⊢
    exact this
  · have := h (Errors.with_name (c.parent ++ [S.fieldName i])
      (S.structValidate i o)) (List.mem_map.mpr ⟨i, hi, rfl⟩)
    unfold Errors.with_name Errors.set_name at this ⊢
    rw [List.map_eq_nil_iff] at this ⊢
    exact this

theorem comp_vals_parent {S : StructSpec} (c : CompCtx S) (p : List String) :
    comp_vals { c with parent := p } = comp_vals c := by
  by_cases hok : (List.finRange S.n).all (fun i => isOkE (finalize_field c i)) = true
  · have hokp : (List.finRange S.n).all
        (fun i => isOkE (finalize_field { c with parent := p } i)) = true := by
      rw [List.all_eq_true] at hok ⊢
      intro i hi
      have hh := hok i hi
      simpa [finalize_field_isOk_parent] using hh
    unfold comp_vals
    rw [dif_pos hokp, dif_pos hok]
    congr 1
    funext i
    have hca : isOkE (finalize_field c i) = true := by
      simpa using List.all_eq_true.mp hok i (List.mem_finRange i)
    have hcap : isOkE (finalize_field { c with parent := p } i) = true := by
      rw [finalize_field_isOk_parent]; exact hca
    have e1 := getOkE_spec _ hcap
    have e2 := getOkE_spec _ hca
    have e3 : finalize_field { c with parent := p } i =
        .ok (getOkE (finalize_field c i) hca) :=
      (finalize_field_ok_parent c p i _).mpr e2
    exact Except.ok.inj (e1.symm.trans e3)
  · have hokp : ¬((List.finRange S.n).all
        (fun i => isOkE (finalize_field { c with parent := p } i)) = true) := by
      intro hokp
      apply hok
      rw [List.all_eq_true] at hokp ⊢
      intro i hi
      have hh := hokp i hi
      simpa [finalize_field_isOk_parent] using hh
    unfold comp_vals
    rw [dif_neg hokp, dif_neg hok]

theorem comp_finalize_parent_toOption {S : StructSpec} (c : CompCtx S)
    (p : List String) :
    (comp_finalize { c with parent := p }).toOption = (comp_finalize c).toOption := by
  by_cases hE : Errors.isEmpty (comp_errors c) = true
  case neg =>
    have hF : Errors.isEmpty (comp_errors c) = false := by
      cases h2 : Errors.isEmpty (comp_errors c)
      · rfl
      · exact absurd h2 hE
    have hFp : Errors.isEmpty (comp_errors { c with parent := p }) = false := by
      rw [comp_errors_isEmpty_parent]; exact hF
    unfold comp_finalize
    simp [hF, hFp, Except.toOption]
  case pos =>
    have hEp : Errors.isEmpty (comp_errors { c with parent := p }) = true := by
      rw [comp_errors_isEmpty_parent]; exact hE
    unfold comp_finalize
    rw [if_pos hEp, if_pos hE, comp_vals_parent]
    cases hv : comp_vals c with
    | none => rfl
    | some o =>
      have hnil : comp_errors c = [] := List.isEmpty_iff.mp hE
      have hnilp : comp_errors { c with parent := p } = [] := List.isEmpty_iff.mp hEp
      rw [hnil, hnilp]
      have hvp := comp_verrs_isEmpty_parent c p o
      cases hvc : Errors.isEmpty (comp_verrs c o) with
      | true =>
        rw [hvc] at hvp
        have e1 : comp_verrs c o = [] := List.isEmpty_iff.mp hvc
        have e2 : comp_verrs { c with parent := p } o = [] := List.isEmpty_iff.mp hvp
        simp [e1, e2]
      | false =>
        rw [hvc] at hvp
        simp [hvc, hvp, Except.toOption]

/-! ## Claims about the composite binder -/

/-- C1: the derived composite `finalize` processes every declared field,
merging each failing child's error payload into the aggregate rather than
aborting at the first failure; if any child failed the aggregate is
returned as-is, without running struct-level validators; and a success is
returned only when the accumulated error set is empty. -/
theorem composite_finalize_aggregates (S : StructSpec) (c : CompCtx S) :
    ((∃ i : Fin S.n, isOkE (finalize_field c i) = false) →
        comp_finalize c = .error (comp_errors c)) ∧
    (isOkE (comp_finalize c) = true → comp_errors c = []) := by
  have hne : (∃ i : Fin S.n, isOkE (finalize_field c i) = false) →
      Errors.isEmpty (comp_errors c) = false := by
    rintro ⟨i, hi⟩
    cases hfi : finalize_field c i with
    | ok v => rw [hfi] at hi; exact absurd hi (by simp [isOkE])
    | error e =>
      have hεne : e ≠ [] := finalize_field_error_ne_nil c i e hfi
      obtain ⟨x, hx⟩ := List.exists_mem_of_ne_nil e hεne
      have hxmem : x ∈ comp_errors c := by
        unfold comp_errors
        refine List.mem_append.mpr (Or.inr ?_)
        refine List.mem_flatten.mpr ⟨e, ?_, hx⟩
        refine List.mem_map.mpr ⟨i, List.mem_finRange i, ?_⟩
        rw [hfi]
        rfl
      unfold Errors.isEmpty
      rw [List.isEmpty_eq_false]
      exact List.ne_nil_of_mem hxmem
  constructor
  · intro hex
    have h0 := hne hex
    unfold comp_finalize
    simp [h0]
  · intro hOk
    by_cases hE : Errors.isEmpty (comp_errors c) = true
    · exact List.isEmpty_iff.mp hE
    · have hF : Errors.isEmpty (comp_errors c) = false := by
        cases hc2 : Errors.isEmpty (comp_errors c)
        · rfl
        · exact absurd hc2 hE
      unfold comp_finalize at hOk
      simp [hF, isOkE] at hOk

/-- C1 witness: scenario B (only `age=three`, strict) has a failing child,
so finalize returns exactly the aggregate; scenario A (`name=Max`,
`age=3`) finalizes successfully, so its aggregate is empty. -/
theorem composite_finalize_aggregates_witness :
    comp_finalize ctxB = .error (comp_errors ctxB) ∧
    comp_errors ctxA = [] := by
  constructor
  · exact (composite_finalize_aggregates personSpec ctxB).1 ⟨(1 : Fin 2), by decide⟩
  · exact (composite_finalize_aggregates personSpec ctxA).2 (by decide)

theorem comp_push_value_unmatched {S : StructSpec} (c : CompCtx S) (f : ValueField)
    (hum : findField S f.name.key_lossy = none) :
    comp_push_value c f =
      if f.name.key_lossy == "_method" || !c.opts.strict then
        { c with parent := f.name.parent }
      else
        { c with parent := f.name.parent, errors := c.errors ++ [f.unexpected] } := by
  unfold comp_push_value
  rw [hum]

theorem comp_push_data_unmatched {S : StructSpec} (c : CompCtx S) (g : DataField)
    (hug : findField S g.name.key_lossy = none) :
    comp_push_data c g =
      if g.name.key_lossy == "_method" || !c.opts.strict then
        { c with parent := g.name.parent }
      else
        { c with parent := g.name.parent, errors := c.errors ++ [g.unexpected] } := by
  unfold comp_push_data
  rw [hug]

/-- C5: an event whose leading key matches no declared field is recorded
as an error under strict options (a hard failure at finalize); under
lenient options it is silently dropped — the context is unchanged apart
from the recorded parent path and finalize produces the same value-level
outcome as without the event; and the `_method` key is always accepted
and ignored regardless of strictness, for value and data events alike. -/
theorem unknown_key_policy (S : StructSpec) (c : CompCtx S) (f : ValueField)
    (g : DataField) (hum : findField S f.name.key_lossy = none)
    (hug : findField S g.name.key_lossy = none) :
    (c.opts.strict = true → f.name.key_lossy ≠ "_method" →
        comp_push_value c f =
          { c with parent := f.name.parent, errors := c.errors ++ [f.unexpected] } ∧
        isOkE (comp_finalize (comp_push_value c f)) = false) ∧
    (c.opts.strict = false →
        comp_push_value c f = { c with parent := f.name.parent } ∧
        (comp_finalize (comp_push_value c f)).toOption = (comp_finalize c).toOption) ∧
    (f.name.key_lossy = "_method" →
        comp_push_value c f = { c with parent := f.name.parent }) ∧
    (c.opts.strict = true → g.name.key_lossy ≠ "_method" →
        comp_push_data c g =
          { c with parent := g.name.parent, errors := c.errors ++ [g.unexpected] } ∧
        isOkE (comp_finalize (comp_push_data c g)) = false) ∧
    (c.opts.strict = false →
        comp_push_data c g = { c with parent := g.name.parent } ∧
        (comp_finalize (comp_push_data c g)).toOption = (comp_finalize c).toOption) ∧
    (g.name.key_lossy = "_method" →
        comp_push_data c g = { c with parent := g.name.parent }) := by
  refine ⟨?_, ?_, ?_, ?_, ?_, ?_⟩
  · intro hs hm
    have hb : (f.name.key_lossy == "_method") = false := beq_eq_false_iff_ne.mpr hm
    have heq : comp_push_value c f =
        { c with parent := f.name.parent, errors := c.errors ++ [f.unexpected] } := by
      rw [comp_push_value_unmatched c f hum, hb, hs]
      simp
    refine ⟨heq, ?_⟩
    rw [heq]
    apply comp_finalize_not_ok_of_errors
    simp
  · intro hs
    have heq : comp_push_value c f = { c with parent := f.name.parent } := by
      rw [comp_push_value_unmatched c f hum, hs]
      simp
    refine ⟨heq, ?_⟩
    rw [heq]
    exact comp_finalize_parent_toOption c f.name.parent
  · intro hm
    have hb : (f.name.key_lossy == "_method") = true := beq_iff_eq.mpr hm
    rw [comp_push_value_unmatched c f hum, hb]
    simp
  · intro hs hm
    have hb : (g.name.key_lossy == "_method") = false := beq_eq_false_iff_ne.mpr hm
    have heq : comp_push_data c g =
        { c with parent := g.name.parent, errors := c.errors ++ [g.unexpected] } := by
      rw [comp_push_data_unmatched c g hug, hb, hs]
      simp
    refine ⟨heq, ?_⟩
    rw [heq]
    apply comp_finalize_not_ok_of_errors
    simp
  · intro hs
    have heq : comp_push_data c g = { c with parent := g.name.parent } := by
      rw [comp_push_data_unmatched c g hug, hs]
      simp
    refine ⟨heq, ?_⟩
    rw [heq]
    exact comp_finalize_parent_toOption c g.name.parent
  · intro hm
    have hb : (g.name.key_lossy == "_method") = true := beq_iff_eq.mpr hm
    rw [comp_push_data_unmatched c g hug, hb]
    simp

/-- C5 witness: on the scenario composite, the unknown key `extra` is a
recorded error with a failing finalize under strict options — for a value
event and for a data event alike — and a no-op with an unchanged finalize
outcome under lenient options, while `_method` is ignored even under
strict options for both event kinds. -/
theorem unknown_key_policy_witness :
    comp_push_value (comp_init personSpec { strict := true })
        { name := NameView.ofKeys ["extra"], value := "x" } =
      { comp_init personSpec { strict := true } with
          errors := [{ kind := .unexpected, name := some ["extra"], value := some "x" }] } ∧
    isOkE (comp_finalize (comp_push_value (comp_init personSpec { strict := true })
        { name := NameView.ofKeys ["extra"], value := "x" })) = false ∧
    comp_push_value (comp_init personSpec { strict := false })
        { name := NameView.ofKeys ["extra"], value := "x" } =
      comp_init personSpec { strict := false } ∧
    (comp_finalize (comp_push_value (comp_init personSpec { strict := false })
        { name := NameView.ofKeys ["extra"], value := "x" })).toOption =
      (comp_finalize (comp_init personSpec { strict := false })).toOption ∧
    comp_push_value (comp_init personSpec { strict := true })
        { name := NameView.ofKeys ["_method"], value := "PUT" } =
      comp_init personSpec { strict := true } ∧
    comp_push_data (comp_init personSpec { strict := true })
        { name := NameView.ofKeys ["extra"] } =
      { comp_init personSpec { strict := true } with
          errors := [{ kind := .unexpected, name := some ["extra"], value := none }] } ∧
    isOkE (comp_finalize (comp_push_data (comp_init personSpec { strict := true })
        { name := NameView.ofKeys ["extra"] })) = false ∧
    comp_push_data (comp_init personSpec { strict := false })
        { name := NameView.ofKeys ["extra"] } =
      comp_init personSpec { strict := false } ∧
    (comp_finalize (comp_push_data (comp_init personSpec { strict := false })
        { name := NameView.ofKeys ["extra"] })).toOption =
      (comp_finalize (comp_init personSpec { strict := false })).toOption ∧
    comp_push_data (comp_init personSpec { strict := true })
        { name := NameView.ofKeys ["_method"] } =
      comp_init personSpec { strict := true } := by
  have h1 := unknown_key_policy personSpec (comp_init personSpec { strict := true })
    { name := NameView.ofKeys ["extra"], value := "x" }
    { name := NameView.ofKeys ["extra"] } (by decide) (by decide)
  have h2 := unknown_key_policy personSpec (comp_init personSpec { strict := false })
    { name := NameView.ofKeys ["extra"], value := "x" }
    { name := NameView.ofKeys ["extra"] } (by decide) (by decide)
  have h3 := unknown_key_policy personSpec (comp_init personSpec { strict := true })
    { name := NameView.ofKeys ["_method"], value := "PUT" }
    { name := NameView.ofKeys ["_method"] } (by decide) (by decide)
  have ha := h1.1 rfl (by decide)
  have hb := h2.2.1 rfl
  have hd := h1.2.2.2.1 rfl (by decide)
  have he := h2.2.2.2.2.1 rfl
  exact ⟨ha.1, ha.2, hb.1, hb.2, h3.2.2.1 rfl, hd.1, hd.2, he.1, he.2,
    h3.2.2.2.2.2 rfl⟩

theorem set_value_name (v : String) (z : Error) :
    (Error.set_value v z).name = z.name := by
  rcases z with ⟨k, n, w⟩
  cases w <;> rfl

/-- C6: field-path and raw-value annotations are monotonic — an error's
existing name or value annotation is never overwritten, enclosing binders
only add annotations an error does not yet have; the leaf binder stamps
its errors with the full source path of the field it received, however
deeply shifted; and a composite binder merely applies `with_name` to a
failed child's errors, which preserves every already-set name. -/
theorem error_path_locality :
    (∀ (e : Error) (p q : List String), e.name = some p → Error.set_name q e = e) ∧
    (∀ (e : Error) (v w : String), e.value = some w → Error.set_value v e = e) ∧
    (∀ (p : List String) (es : Errors), (∀ x ∈ es, x.name ≠ none) →
        Errors.with_name p es = es) ∧
    (∀ (T : Type) (ff : FromFormFieldImpl T) (c : FromFieldContext T)
        (nv : NameView) (e : Errors),
        c.field_name = some nv → c.value = some (.error e) →
        (∀ x ∈ e, x.name = none) →
        ∀ x ∈ errPart (leafFinalize ff c), x.name = some nv.keys) ∧
    (∀ (S : StructSpec) (c : CompCtx S) (i : Fin S.n) (ctx : (S.binder i).Ctx)
        (e : Errors), c.child i = some ctx → (S.binder i).finalize ctx = .error e →
        e ≠ [] →
        finalize_field c i =
          .error (Errors.with_name (c.parent ++ [S.fieldName i]) e)) := by
  refine ⟨?_, ?_, ?_, ?_, ?_⟩
  · intro e p q h
    simp [Error.set_name, h]
  · intro e v w h
    simp [Error.set_value, h]
  · intro p es h
    unfold Errors.with_name Errors.set_name
    have hmap : ∀ x ∈ es, Error.set_name p x = x := by
      intro x hx
      cases hn : x.name with
      | none => exact absurd hn (h x hx)
      | some q => simp [Error.set_name, hn]
    calc es.map (Error.set_name p) = es.map id := List.map_congr_left hmap
    _ = es := List.map_id es
  · intro T ff c nv e hname hval hun x hx
    cases hfv : c.field_value with
    | none =>
      simp only [leafFinalize, hval, hname, hfv, errPart, Errors.set_name] at hx
      obtain ⟨y, hy, rfl⟩ := List.mem_map.mp hx
      simp [Error.set_name, hun y hy]
    | some v =>
      simp only [leafFinalize, hval, hname, hfv, errPart, Errors.set_name,
        Errors.set_value] at hx
      obtain ⟨z, hz, rfl⟩ := List.mem_map.mp hx
      obtain ⟨y, hy, rfl⟩ := List.mem_map.mp hz
      rw [set_value_name]
      simp [Error.set_name, hun y hy]
  · intro S c i ctx e hchild hfin hne
    have hcore : finalize_field_core c i = .error e := by
      simp [finalize_field_core, hchild, hfin]
    have hemp : Errors.isEmpty
        (Errors.with_name (c.parent ++ [S.fieldName i]) e) = false := by
      rw [with_name_isEmpty]
      unfold Errors.isEmpty
      rw [List.isEmpty_eq_false]
      exact hne
    simp [finalize_field, hcore, hemp]

/-- C6 witness: a named error keeps its name and a valued error its value
under re-annotation; a fully named error list passes `with_name`
untouched; the leaf for the shifted field `a.b` stamps the full path
`a.b` on its conversion failure; and the composite wraps the `age`
child's failure with `with_name`, which preserves the child's path. -/
theorem error_path_locality_witness :
    Error.set_name ["z"] { kind := .missing, name := some ["a"], value := none } =
      { kind := .missing, name := some ["a"], value := none } ∧
    Error.set_value "v2" { kind := .missing, name := none, value := some "v1" } =
      { kind := .missing, name := none, value := some "v1" } ∧
    Errors.with_name ["z"]
        [{ kind := .duplicate, name := some ["a", "b"], value := none }] =
      [{ kind := .duplicate, name := some ["a", "b"], value := none }] ∧
    ({ kind := .conversion "invalid digit found in string", name := some ["a", "b"],
        value := some "three" } : Error).name = some ["a", "b"] ∧
    finalize_field ctxB (1 : Fin 2) =
      .error (Errors.with_name (ctxB.parent ++ [personSpec.fieldName (1 : Fin 2)])
        [{ kind := .conversion "invalid digit found in string",
           name := some ["age"], value := some "three" }]) := by
  have h := error_path_locality
  refine ⟨h.1 _ ["a"] ["z"] rfl, h.2.1 _ "v2" "v1" rfl, ?_, ?_, ?_⟩
  · exact h.2.2.1 ["z"] _ (by decide)
  · exact h.2.2.2.1 Nat u16Impl convCtx { keys := ["a", "b"], pos := 1 }
      [Error.ofKind (.conversion "invalid digit found in string")] rfl rfl
      (by decide) _ (by decide)
  · exact h.2.2.2.2 personSpec ctxB (1 : Fin 2) ageCtx
      [{ kind := .conversion "invalid digit found in string",
         name := some ["age"], value := some "three" }] rfl (by rfl) (by decide)

end Rocket
